import Mathlib

/-!
Verification of the natural-language specification of `src/static/app.js`
(the browser client of the VocabTime vocabulary trainer) against a shallow
embedding of that file in Lean.

The embedding models JavaScript strings as Lean `String` (a list of
characters), JavaScript's dynamically typed values as the inductive `JsVal`,
and each handler of the client as a pure function on an explicit
`AppState` record mirroring the `state` object of the source.  String
primitives of the JavaScript runtime (`trim`, `toLowerCase`, `split`,
`includes`, `parseInt`) are given executable structural definitions with
the runtime's documented semantics.  `JSON.parse` is not reimplemented:
every function that consults it takes an explicit parameter
`jsonArr : String → Option (List JsVal)` which returns `some elems`
exactly when the runtime parse succeeds *and* yields an array (the only
case the source inspects; a parse failure and a successful non-array
parse are both followed by the same fall-through in the source).
-/

/-! ## JavaScript string primitives -/

/-- The whitespace class trimmed by JavaScript's `String.prototype.trim`. -/
def jsWhitespace (c : Char) : Bool :=
  c == ' ' || c == '\t' || c == '\n' || c == '\r' ||
  c == '\x0b' || c == '\x0c' || c == ' ' || c == '﻿'

/-- Drop leading whitespace from a character list. -/
def trimLeftChars (l : List Char) : List Char := l.dropWhile jsWhitespace

/-- Drop trailing whitespace from a character list. -/
def trimRightChars (l : List Char) : List Char :=
  (l.reverse.dropWhile jsWhitespace).reverse

/-- Both-ends trim on character lists. -/
def trimChars (l : List Char) : List Char := trimRightChars (trimLeftChars l)

/-- JavaScript `s.trim()`. -/
def jsTrim (s : String) : String := ⟨trimChars s.data⟩

/-- JavaScript `s.toLowerCase()` (on the ASCII range, which is all the
client's comparisons rely on; characters outside it are untouched). -/
def jsToLower (s : String) : String := ⟨s.data.map Char.toLower⟩

/-- `_norm` from the source (line 42): `(s || "").toString().trim().toLowerCase()`
restricted to string inputs, where the `|| ""` coalescing is the identity. -/
def _norm (s : String) : String := jsToLower (jsTrim s)

/-- Does `pat` occur as a contiguous run inside `l`?  Scans one position at
a time, checking a prefix match at each. -/
def containsSubAux (pat : List Char) : List Char → Bool
  | [] => pat.isPrefixOf []
  | c :: rest => pat.isPrefixOf (c :: rest) || containsSubAux pat rest

/-- JavaScript `s.includes(pat)` for the non-empty literals used by the source. -/
def jsIncludes (s pat : String) : Bool := containsSubAux pat.data s.data

/-- Fuelled worker for `jsSplit`; the fuel is an upper bound on the number
of characters still to be consumed, so `length + 1` always suffices. -/
def splitAux (sep : List Char) : Nat → List Char → List Char → List (List Char)
  | 0, acc, _ => [acc.reverse]
  | _ + 1, acc, [] => [acc.reverse]
  | fuel + 1, acc, c :: rest =>
    if sep.isPrefixOf (c :: rest) then
      acc.reverse :: splitAux sep fuel [] (List.drop (sep.length - 1) rest)
    else
      splitAux sep fuel (c :: acc) rest

/-- JavaScript `s.split(sep)` for a non-empty separator: non-overlapping
leftmost matches, keeping empty segments. -/
def jsSplit (s sep : String) : List String :=
  (splitAux sep.data (s.data.length + 1) [] s.data).map fun l => (⟨l⟩ : String)

/-- JavaScript `Array.prototype.join(sep)` on an already-stringified list. -/
def joinSep (sep : String) : List String → String
  | [] => ""
  | [x] => x
  | x :: y :: rest => x ++ sep ++ joinSep sep (y :: rest)

/-- One decimal digit character. -/
def decDigit : Nat → Char
  | 0 => '0' | 1 => '1' | 2 => '2' | 3 => '3' | 4 => '4'
  | 5 => '5' | 6 => '6' | 7 => '7' | 8 => '8' | _ => '9'

/-- Fuelled most-significant-first decimal digits of a natural number. -/
def natDigitsAux : Nat → Nat → List Char
  | 0, _ => []
  | fuel + 1, n => if n < 10 then [decDigit n] else natDigitsAux fuel (n / 10) ++ [decDigit (n % 10)]

/-- Decimal digits of a natural number. -/
def natToChars (n : Nat) : List Char := natDigitsAux (n + 1) n

/-- JavaScript `String(n)` for an integral number. -/
def intToStr : Int → String
  | Int.ofNat n => ⟨natToChars n⟩
  | Int.negSucc m => ⟨'-' :: natToChars (m + 1)⟩

/-- Accumulate the value of a run of decimal digit characters. -/
def digitsToNat (l : List Char) : Nat :=
  l.foldl (fun acc c => acc * 10 + (c.toNat - 48)) 0

/-- JavaScript `parseInt(v, 10)`: skip leading whitespace, optional sign,
then the longest leading run of decimal digits; `none` models `NaN`. -/
def jsParseInt10 (v : String) : Option Int :=
  match v.data.dropWhile jsWhitespace with
  | '-' :: t =>
    let ds := t.takeWhile Char.isDigit
    if ds.isEmpty then none else some (-(digitsToNat ds : Int))
  | '+' :: t =>
    let ds := t.takeWhile Char.isDigit
    if ds.isEmpty then none else some ((digitsToNat ds : Int))
  | t =>
    let ds := t.takeWhile Char.isDigit
    if ds.isEmpty then none else some ((digitsToNat ds : Int))

/-! ## JavaScript values -/

/-- The universe of dynamically typed values the client's translation field
can carry: `null` also stands for `undefined`, numbers are the integral
doubles the backend transports. -/
inductive JsVal where
  | null : JsVal
  | str : String → JsVal
  | num : Int → JsVal
  | bool : Bool → JsVal
  | arr : List JsVal → JsVal

/-- JavaScript truthiness of a `JsVal`. -/
def JsVal.truthy : JsVal → Bool
  | JsVal.null => false
  | JsVal.str s => !(s == "")
  | JsVal.num n => !(n == 0)
  | JsVal.bool b => b
  | JsVal.arr _ => true

/-- The guard `!t && t !== 0` of line 220, evaluated per constructor: it
holds for `null`/`undefined`, the empty string, and `false`; a number is
either truthy or strictly equal to `0`, so no number passes, and arrays
are always truthy. -/
def nullishGate : JsVal → Bool
  | JsVal.null => true
  | JsVal.str s => s == ""
  | JsVal.num _ => false
  | JsVal.bool b => !b
  | JsVal.arr _ => false

mutual

/-- JavaScript `String(x)` / `x.toString()` on the `JsVal` universe:
arrays render as their comma-join. -/
def jsToString : JsVal → String
  | JsVal.null => "null"
  | JsVal.str s => s
  | JsVal.num n => intToStr n
  | JsVal.bool b => if b then "true" else "false"
  | JsVal.arr xs => joinComma xs

/-- `Array.prototype.toString`: elements joined by commas, with `null`
and `undefined` elements rendered as the empty string. -/
def joinComma : List JsVal → String
  | [] => ""
  | [x] => elemStr x
  | x :: y :: rest => elemStr x ++ "," ++ joinComma (y :: rest)

/-- How `Array.prototype.join` renders one element. -/
def elemStr : JsVal → String
  | JsVal.null => ""
  | x => jsToString x

end

/-- `(x ?? "").toString()` from the source's element mapper. -/
def coalesceStr (x : JsVal) : String :=
  match x with
  | JsVal.null => ""
  | y => jsToString y

/-! ## Translation-match utility (source lines 208-236) -/

/-- `_toTranslationsArray` (source lines 219-236), the translation parser the
spec calls `parseTranslationSet`.  The parameter `jsonArr` abstracts the
`try JSON.parse` of lines 223-226: it returns `some elems` exactly when the
runtime parse succeeds and the result is an array; a thrown parse error and
a successful non-array parse both continue with the delimiter cascade, which
is the single `none` case here. -/
def _toTranslationsArray (jsonArr : String → Option (List JsVal)) (t : JsVal) : List String :=
  if nullishGate t then []
  else
    match t with
    | JsVal.arr xs => (xs.map fun x => jsTrim (coalesceStr x)).filter fun e => !(e == "")
    | JsVal.str s =>
      match jsonArr s with
      | some parsed => (parsed.map fun x => jsTrim (coalesceStr x)).filter fun e => !(e == "")
      | none =>
        if jsIncludes s "||" then ((jsSplit s "||").map jsTrim).filter fun e => !(e == "")
        else if jsIncludes s "|" then ((jsSplit s "|").map jsTrim).filter fun e => !(e == "")
        else if jsIncludes s "," &&
            (((jsSplit s ",").map jsTrim).filter fun e => !(e == "")).length > 1 then
          ((jsSplit s ",").map jsTrim).filter fun e => !(e == "")
        else [jsTrim s]
    | other => [jsTrim (jsToString other)]

/-- `_matchesTranslation` (source lines 208-212). -/
def _matchesTranslation (jsonArr : String → Option (List JsVal))
    (answer : String) (translation : JsVal) : Bool :=
  let a := _norm answer
  (_toTranslationsArray jsonArr translation).any fun t => _norm t == a

/-- `formatTranslation` (source lines 214-217), the spec's `display`. -/
def formatTranslation (jsonArr : String → Option (List JsVal)) (t : JsVal) : String :=
  joinSep " / " (_toTranslationsArray jsonArr t)

/-! ## Application state and handlers -/

/-- One element of `state.vocab` as mapped in `loadList` (source lines
135-137). -/
structure VocabItem where
  id : JsVal
  date : String
  day_no : Int
  word : String
  translation : JsVal

/-- `state.check`: `null`, `{ok: true}`, or `{ok: false, gold}`. -/
inductive CheckRes where
  | ok : CheckRes
  | ng : JsVal → CheckRes

/-- The `state.view` discriminator. -/
inductive View where
  | loading : View
  | auth : View
  | main : View

/-- The `state` object (source lines 52-63).  `revealed`, a `Set` in the
source, is modelled as the list of its keys. -/
structure AppState where
  me : Option String
  vocab : List VocabItem
  random : Option VocabItem
  day : Int
  answer : String
  check : Option CheckRes
  view : View
  revealed : List String
  listSearch : String
  listPage : Int

/-- The initial value of `state` (source lines 52-63). -/
def initState : AppState :=
  { me := none, vocab := [], random := none, day := 1, answer := "",
    check := none, view := View.loading, revealed := [], listSearch := "",
    listPage := 1 }

/-- `currentItem` (source lines 191-194). -/
def currentItem (s : AppState) : Option VocabItem :=
  if s.vocab.isEmpty then none
  else s.vocab.find? fun x => x.day_no == s.day

/-- The `state.vocab.length ? state.vocab[state.vocab.length - 1].day_no : 1`
idiom of lines 200 and 244: the `day_no` of the last loaded item. -/
def lastDayNo (v : List VocabItem) : Int :=
  match v.getLast? with
  | some it => it.day_no
  | none => 1

/-- The largest `day_no` in the collection (`1` when it is empty); this is
what the spec's transitions are phrased in terms of. -/
def maxDayNo (v : List VocabItem) : Int :=
  match v with
  | [] => 1
  | it :: rest => rest.foldl (fun m x => max m x.day_no) it.day_no

/-- `goPrevDay` (source lines 196-198). -/
def goPrevDay (s : AppState) : AppState :=
  if s.day > 1 then { s with day := s.day - 1, answer := "", check := none }
  else s

/-- `goNextDay` (source lines 199-202). -/
def goNextDay (s : AppState) : AppState :=
  let maxd := lastDayNo s.vocab
  if s.day < maxd then { s with day := s.day + 1, answer := "", check := none }
  else s

/-- `setDayFromSelect` (source lines 203-206). -/
def setDayFromSelect (v : String) (s : AppState) : AppState :=
  match jsParseInt10 v with
  | some n => { s with day := n, answer := "", check := none }
  | none => s

/-- The user-facing notices `checkAnswer` can raise: the "no word for this
day yet" alert of line 240, and the completion alert (with its haptic
signal) of lines 248-249. -/
inductive Notice where
  | noItem : Notice
  | completed : Notice

/-- Line 254: `Array.isArray(item.translation) ? item.translation.join(" / ")
: item.translation` — the raw translation is passed through when it is not
an array. -/
def goldOf (t : JsVal) : JsVal :=
  match t with
  | JsVal.arr xs => JsVal.str (joinSep " / " (xs.map elemStr))
  | x => x

/-- `checkAnswer` (source lines 238-258) as a pure transition returning the
next state together with the alert raised, if any. -/
def checkAnswer (jsonArr : String → Option (List JsVal)) (s : AppState) :
    AppState × Option Notice :=
  match currentItem s with
  | none => (s, some Notice.noItem)
  | some item =>
    if _matchesTranslation jsonArr s.answer item.translation then
      if s.day < lastDayNo s.vocab then
        ({ s with day := s.day + 1, answer := "", check := some CheckRes.ok }, none)
      else
        ({ s with answer := "", check := some CheckRes.ok }, some Notice.completed)
    else
      ({ s with check := some (CheckRes.ng (goldOf item.translation)) }, none)

/-! ## List view: search filter and pagination (source lines 339-366) -/

/-- `_norm` applied to a non-string value, as `ListTable` does to the raw
translation field on line 346: `(t || "").toString().trim().toLowerCase()`. -/
def _normVal (v : JsVal) : String :=
  jsToLower (jsTrim (if v.truthy then jsToString v else ""))

/-- The filter of source lines 344-347. -/
def filteredRows (vocab : List VocabItem) (listSearch : String) : List VocabItem :=
  let q := _norm listSearch
  vocab.filter fun r =>
    (q == "") || jsIncludes (_norm r.word) q || jsIncludes (_normVal r.translation) q

/-- The pagination computation of `ListTable` (source lines 340-355): the
total page count, the clamped `state.listPage`, and the visible slice. -/
def listTablePage (vocab : List VocabItem) (search : String) (page : Int) :
    Nat × Int × List VocabItem :=
  let filtered := filteredRows vocab search
  let tp : Nat := (filtered.length + 10 - 1) / 10
  let p1 : Int := if page > (tp : Int) ∧ 0 < tp then (tp : Int) else page
  let p2 : Int := if p1 < 1 then 1 else p1
  let start : Nat := ((p2 - 1) * 10).toNat
  (tp, p2, (filtered.drop start).take 10)

/-- The search input's change handler (source lines 362-366). -/
def onSearchChange (q : String) (s : AppState) : AppState :=
  { s with listSearch := q, listPage := 1 }

/-! ## Logout (source lines 105-130) -/

/-- The HTTP calls `logout` can make. -/
inductive LogCall where
  | post : LogCall
  | get : LogCall

/-- The navigation `logout` always finishes with (lines 123-129): a
cache-busting `location.replace` in the normal path, `location.reload` if
the `URL` constructor throws. -/
inductive NavAction where
  | replace : NavAction
  | reload : NavAction

/-- `logout` (source lines 105-130) as a pure transition.  `postFails` and
`getFails` are the outcomes of the two network calls; the nested
`try`/`catch` means the `GET` fallback is attempted exactly when the `POST`
throws, its own failure is swallowed, and the rest of the handler runs
unconditionally.  Lines 112-120 reset every state field except
`state.revealed`, which the handler never touches.  The result is the new
state, the calls made in order, and the navigation performed. -/
def logout (postFails getFails urlCtorFails : Bool) (s : AppState) :
    AppState × List LogCall × NavAction :=
  let _ := getFails
  ({ me := none, vocab := [], random := none, day := 1, answer := "",
     check := none, listSearch := "", listPage := 1, view := View.auth,
     revealed := s.revealed },
   if postFails then [LogCall.post, LogCall.get] else [LogCall.post],
   if urlCtorFails then NavAction.reload else NavAction.replace)

/-! ## The spec's description of the translation parser, for claim C2 -/

/-- The parser exactly as §4.2 of the spec words it (`parseTranslationSet`):
a sequence input is stringified element-wise, trimmed, with empties dropped;
a string input is JSON-array-parsed when possible, else split on the first
applicable of the three delimiters, the comma only when it yields more than
one non-empty trimmed segment; the empty string gives the empty sequence. -/
def parseTranslationSet_spec (jsonArr : String → Option (List JsVal)) :
    JsVal → List String
  | JsVal.arr xs => (xs.map fun x => jsTrim (coalesceStr x)).filter fun e => !(e == "")
  | JsVal.str s =>
    if s = "" then []
    else
      match jsonArr s with
      | some parsed => (parsed.map fun x => jsTrim (coalesceStr x)).filter fun e => !(e == "")
      | none =>
        if jsIncludes s "||" then ((jsSplit s "||").map jsTrim).filter fun e => !(e == "")
        else if jsIncludes s "|" then ((jsSplit s "|").map jsTrim).filter fun e => !(e == "")
        else
          let parts := ((jsSplit s ",").map jsTrim).filter fun e => !(e == "")
          if parts.length > 1 then parts
          else [jsTrim s]
  | _ => []

/-! ## Concrete fixtures used to witness the theorems -/

/-- A `JSON.parse` oracle that always fails with an error or a non-array
result; it agrees with the runtime parse on every fixture string below,
none of which is a JSON array literal. -/
def noJson : String → Option (List JsVal) := fun _ => none

/-- Day-1 fixture item. -/
def itemApple : VocabItem :=
  { id := JsVal.num 1, date := "2026-01-01", day_no := 1, word := "apple",
    translation := JsVal.str "pomme" }

/-- Day-2 fixture item. -/
def itemBear : VocabItem :=
  { id := JsVal.num 2, date := "2026-01-02", day_no := 2, word := "bear",
    translation := JsVal.str "ours" }

/-- A two-day collection with the day-1 answer drafted correctly. -/
def sTwoDays : AppState :=
  { initState with
    vocab := [itemApple, itemBear], view := View.main,
    day := 1, answer := "pomme" }

/-- A one-day collection whose translation is a `"||"`-delimited string and
whose drafted answer is wrong. -/
def itemMulti : VocabItem :=
  { id := JsVal.num 3, date := "2026-01-03", day_no := 1, word := "bear",
    translation := JsVal.str "cat||gato" }

/-- State for the mismatch scenario. -/
def sMulti : AppState :=
  { initState with
    vocab := [itemMulti], view := View.main, day := 1,
    answer := "dog" }

example : jsTrim "  a b  " = "a b" := rfl
example : _norm " CaT " = "cat" := rfl
example : jsSplit "a|b||" "||" = ["a|b", ""] := rfl
example : jsSplit "a,b" "," = ["a", "b"] := rfl
example : jsSplit "|||" "||" = ["", "|"] := rfl
example : jsIncludes "a|b" "||" = false := rfl
example : jsIncludes "a||b" "||" = true := rfl
example : jsParseInt10 " 12px" = some 12 := rfl
example : jsParseInt10 "x2" = none := rfl
example : jsParseInt10 "-7" = some (-7) := rfl
example : intToStr (-12) = "-12" := rfl
example : joinSep " / " ["a", "b"] = "a / b" := rfl
example : _toTranslationsArray (fun _ => none) (JsVal.str "red, blue") = ["red", "blue"] := rfl
example : _toTranslationsArray (fun _ => none) (JsVal.str "a, b, c") = ["a", "b", "c"] := rfl
example : _toTranslationsArray (fun _ => none) (JsVal.str "hello, world problem") = ["hello", "world problem"] := rfl
example : _toTranslationsArray (fun _ => none) (JsVal.str "a,") = ["a,"] := rfl
example : _toTranslationsArray (fun _ => none) (JsVal.str "cat||gato") = ["cat", "gato"] := rfl
example : _toTranslationsArray (fun _ => none) (JsVal.str " ") = [""] := rfl
example : _toTranslationsArray (fun _ => none) (JsVal.str "") = [] := rfl
example : _toTranslationsArray (fun _ => none) (JsVal.arr [JsVal.str " cat ", JsVal.str " "]) = ["cat"] := by
  simp [_toTranslationsArray, nullishGate, coalesceStr, jsToString]
  decide
example : _toTranslationsArray (fun _ => none) (JsVal.num 0) = ["0"] := by simp [_toTranslationsArray, nullishGate, jsToString, intToStr, natToChars, natDigitsAux, decDigit, jsTrim, trimChars, trimLeftChars, trimRightChars, jsWhitespace]
example : _matchesTranslation (fun _ => none) " Cat " (JsVal.arr [JsVal.str "cat"]) = true := by
  simp [_matchesTranslation, _toTranslationsArray, nullishGate, coalesceStr, jsToString]
  decide
example : _matchesTranslation (fun _ => none) "gato" (JsVal.str "cat||gato") = true := rfl
example : _matchesTranslation (fun _ => none) "dog" (JsVal.str "cat||gato") = false := rfl
example : _matchesTranslation (fun _ => none) "" (JsVal.str " ") = true := rfl
example : formatTranslation (fun _ => none) (JsVal.str "cat||gato") = "cat / gato" := rfl
example : (listTablePage [] "" 5).2.1 = 5 := rfl
example : (listTablePage [] "" 5).1 = 0 := rfl

/-! ## Helper lemmas about the string primitives -/

theorem dropWhile_head_false {α} (p : α → Bool) :
    ∀ (l : List α) (c : α) (t : List α), l.dropWhile p = c :: t → p c = false := by
  intro l
  induction l with
  | nil => intro c t h; simp at h
  | cons a r ih =>
    intro c t h
    rw [List.dropWhile_cons] at h
    by_cases ha : p a = true
    · rw [if_pos ha] at h; exact ih c t h
    · rw [if_neg ha] at h
      cases h
      simpa using ha

theorem dropWhile_cons_false {α} (p : α → Bool) (c : α) (t : List α) (h : p c = false) :
    (c :: t).dropWhile p = c :: t := by
  rw [List.dropWhile_cons, if_neg (by simp [h])]

theorem dropWhile_idem {α} (p : α → Bool) (l : List α) :
    (l.dropWhile p).dropWhile p = l.dropWhile p := by
  cases h : l.dropWhile p with
  | nil => rfl
  | cons c t => exact dropWhile_cons_false p c t (dropWhile_head_false p l c t h)

theorem dropWhile_snoc_false {α} (p : α → Bool) (c : α) (h : p c = false) :
    ∀ l : List α, (l ++ [c]).dropWhile p = l.dropWhile p ++ [c] := by
  intro l
  induction l with
  | nil => simpa using dropWhile_cons_false p c [] h
  | cons a r ih =>
    by_cases ha : p a = true
    · simpa [List.dropWhile_cons, ha] using ih
    · simp [List.dropWhile_cons, ha]

theorem dropWhile_eq_self_of_false {α} (p : α → Bool) (l : List α)
    (h : ∀ c ∈ l, p c = false) : l.dropWhile p = l := by
  cases l with
  | nil => rfl
  | cons c t => exact dropWhile_cons_false p c t (h c (List.mem_cons_self c t))

theorem trimRightChars_cons_false (c : Char) (t : List Char) (h : jsWhitespace c = false) :
    trimRightChars (c :: t) = c :: trimRightChars t := by
  unfold trimRightChars
  rw [List.reverse_cons, dropWhile_snoc_false jsWhitespace c h]
  simp

theorem trimRightChars_idem (l : List Char) :
    trimRightChars (trimRightChars l) = trimRightChars l := by
  unfold trimRightChars
  rw [List.reverse_reverse, dropWhile_idem]

theorem trimLeftChars_trimRightChars (l : List Char) (hl : trimLeftChars l = l) :
    trimLeftChars (trimRightChars l) = trimRightChars l := by
  cases l with
  | nil => rfl
  | cons c t =>
    have hc : jsWhitespace c = false := by
      unfold trimLeftChars at hl
      rw [List.dropWhile_cons] at hl
      by_cases h : jsWhitespace c = true
      · rw [if_pos h] at hl
        have := congrArg List.length hl
        have hle := (List.dropWhile_sublist (l := t) jsWhitespace).length_le
        simp at this
        omega
      · simpa using h
    rw [trimRightChars_cons_false c t hc]
    exact dropWhile_cons_false jsWhitespace c _ hc

theorem trimChars_idem (l : List Char) : trimChars (trimChars l) = trimChars l := by
  unfold trimChars
  have h1 : trimLeftChars (trimLeftChars l) = trimLeftChars l := dropWhile_idem _ l
  rw [trimLeftChars_trimRightChars (trimLeftChars l) h1, trimRightChars_idem]

theorem jsTrim_idem (s : String) : jsTrim (jsTrim s) = jsTrim s := by
  unfold jsTrim
  exact congrArg String.mk (trimChars_idem s.data)

theorem string_mk_eq_empty_iff (l : List Char) : (⟨l⟩ : String) = "" ↔ l = [] := by
  constructor
  · intro h; exact congrArg String.data h
  · intro h; rw [h]

theorem trimChars_eq_nil_iff (l : List Char) :
    trimChars l = [] ↔ ∀ c ∈ l, jsWhitespace c = true := by
  constructor
  · intro h c hc
    unfold trimChars trimRightChars at h
    have h2 : (trimLeftChars l).reverse.dropWhile jsWhitespace = [] := by
      cases he : (trimLeftChars l).reverse.dropWhile jsWhitespace with
      | nil => rfl
      | cons a t => rw [he] at h; simp at h
    have hdrop : ∀ c ∈ trimLeftChars l, jsWhitespace c = true := by
      intro d hd
      exact List.dropWhile_eq_nil_iff.mp h2 d (List.mem_reverse.mpr hd)
    have := List.takeWhile_append_dropWhile (p := jsWhitespace) (l := l)
    rw [← this] at hc
    rcases List.mem_append.mp hc with htk | hdr
    · exact List.mem_takeWhile_imp htk
    · exact hdrop c hdr
  · intro h
    have h1 : trimLeftChars l = [] := List.dropWhile_eq_nil_iff.mpr h
    unfold trimChars
    rw [h1]
    rfl

theorem jsTrim_eq_empty_iff (s : String) :
    jsTrim s = "" ↔ ∀ c ∈ s.data, jsWhitespace c = true := by
  unfold jsTrim
  rw [string_mk_eq_empty_iff, trimChars_eq_nil_iff]

theorem jsToLower_eq_empty_iff (s : String) : jsToLower s = "" ↔ s = "" := by
  unfold jsToLower
  rw [string_mk_eq_empty_iff, List.map_eq_nil_iff]
  constructor
  · intro h
    have : (⟨s.data⟩ : String) = (⟨[]⟩ : String) := congrArg String.mk h
    exact this
  · intro h; rw [h]

theorem norm_eq_empty_iff (s : String) : _norm s = "" ↔ jsTrim s = "" := by
  unfold _norm
  rw [jsToLower_eq_empty_iff]

theorem norm_jsTrim (s : String) : _norm (jsTrim s) = _norm s := by
  unfold _norm
  rw [jsTrim_idem]

theorem containsSubAux_head_mem (d : Char) (ds : List Char) :
    ∀ l : List Char, containsSubAux (d :: ds) l = true → d ∈ l := by
  intro l
  induction l with
  | nil => intro h; simp [containsSubAux, List.isPrefixOf] at h
  | cons c rest ih =>
    intro h
    unfold containsSubAux at h
    rcases Bool.or_eq_true_iff.mp h with hp | hr
    · unfold List.isPrefixOf at hp
      have : d = c := by
        rcases Bool.and_eq_true_iff.mp hp with ⟨hdc, _⟩
        exact eq_of_beq hdc
      rw [this]
      exact List.mem_cons_self c rest
    · exact List.mem_cons_of_mem c (ih hr)

theorem containsSubAux_false_of_ws (s : List Char) (hws : ∀ c ∈ s, jsWhitespace c = true)
    (d : Char) (ds : List Char) (hd : jsWhitespace d = false) :
    containsSubAux (d :: ds) s = false := by
  by_contra h
  rw [Bool.not_eq_false] at h
  have := hws d (containsSubAux_head_mem d ds s h)
  rw [this] at hd
  cases hd

theorem splitAux_no_occurrence (sep : List Char) :
    ∀ (l : List Char) (fuel : Nat) (acc : List Char), l.length ≤ fuel →
      containsSubAux sep l = false → splitAux sep fuel acc l = [acc.reverse ++ l] := by
  intro l
  induction l with
  | nil =>
    intro fuel acc _ _
    cases fuel <;> simp [splitAux]
  | cons c rest ih =>
    intro fuel acc hlen hno
    cases fuel with
    | zero => simp at hlen
    | succ f =>
      unfold containsSubAux at hno
      rw [Bool.or_eq_false_iff] at hno
      unfold splitAux
      rw [if_neg (by simp [hno.1])]
      rw [ih f (c :: acc) (by simpa using hlen) hno.2]
      simp

theorem jsSplit_of_not_includes (s sep : String) (h : jsIncludes s sep = false) :
    jsSplit s sep = [s] := by
  unfold jsSplit
  unfold jsIncludes at h
  rw [splitAux_no_occurrence sep.data s.data (s.data.length + 1) [] (by omega) h]
  rfl

theorem decDigit_not_ws : ∀ m : Nat, jsWhitespace (decDigit m) = false := by
  intro m
  rcases m with _|_|_|_|_|_|_|_|_|n <;> rfl

theorem natDigitsAux_not_ws :
    ∀ (fuel n : Nat) (c : Char), c ∈ natDigitsAux fuel n → jsWhitespace c = false := by
  intro fuel
  induction fuel with
  | zero => intro n c h; simp [natDigitsAux] at h
  | succ f ih =>
    intro n c h
    unfold natDigitsAux at h
    by_cases h10 : n < 10
    · rw [if_pos h10] at h
      rw [List.mem_singleton.mp h]
      exact decDigit_not_ws n
    · rw [if_neg h10] at h
      rcases List.mem_append.mp h with hl | hr
      · exact ih (n / 10) c hl
      · rw [List.mem_singleton.mp hr]
        exact decDigit_not_ws (n % 10)

theorem natToChars_ne_nil (n : Nat) : natToChars n ≠ [] := by
  unfold natToChars natDigitsAux
  by_cases h10 : n < 10
  · simp [h10]
  · simp [h10]

theorem intToStr_not_ws (i : Int) : ∀ c ∈ (intToStr i).data, jsWhitespace c = false := by
  cases i with
  | ofNat n =>
    intro c hc
    exact natDigitsAux_not_ws (n + 1) n c hc
  | negSucc m =>
    intro c hc
    rcases List.mem_cons.mp hc with h | h
    · rw [h]; rfl
    · exact natDigitsAux_not_ws (m + 2) (m + 1) c h

theorem intToStr_data_ne_nil (i : Int) : (intToStr i).data ≠ [] := by
  cases i with
  | ofNat n => exact natToChars_ne_nil n
  | negSucc m => simp [intToStr]

theorem trimChars_eq_self_of_not_ws (l : List Char)
    (h : ∀ c ∈ l, jsWhitespace c = false) : trimChars l = l := by
  unfold trimChars trimLeftChars trimRightChars
  rw [dropWhile_eq_self_of_false jsWhitespace l h]
  rw [dropWhile_eq_self_of_false jsWhitespace l.reverse fun c hc => h c (List.mem_reverse.mp hc)]
  exact List.reverse_reverse l

theorem jsTrim_intToStr (i : Int) : jsTrim (intToStr i) = intToStr i := by
  unfold jsTrim
  rw [trimChars_eq_self_of_not_ws (intToStr i).data (intToStr_not_ws i)]

theorem jsTrim_intToStr_ne_empty (i : Int) : jsTrim (intToStr i) ≠ "" := by
  rw [jsTrim_intToStr]
  intro h
  exact intToStr_data_ne_nil i (congrArg String.data h)

/-! ## Shape of the parser's output -/

theorem mem_map_trim_filter {β} (f : β → String) (xs : List β) (e : String)
    (h : e ∈ (xs.map fun x => jsTrim (f x)).filter fun e => !(e == "")) :
    (∃ x, e = jsTrim (f x)) ∧ e ≠ "" := by
  rcases List.mem_filter.mp h with ⟨hmem, hne⟩
  rcases List.mem_map.mp hmem with ⟨x, _, hx⟩
  refine ⟨⟨x, hx.symm⟩, ?_⟩
  simpa using hne

theorem mem_split_trim_filter (parts : List String) (e : String)
    (h : e ∈ (parts.map jsTrim).filter fun e => !(e == "")) :
    (∃ x, e = jsTrim x) ∧ e ≠ "" := by
  rcases List.mem_filter.mp h with ⟨hmem, hne⟩
  rcases List.mem_map.mp hmem with ⟨x, _, hx⟩
  refine ⟨⟨x, hx.symm⟩, ?_⟩
  simpa using hne

/-- Every entry the parser returns is a fixed point of `jsTrim`. -/
theorem entries_trim (jsonArr : String → Option (List JsVal)) (t : JsVal) :
    ∀ e ∈ _toTranslationsArray jsonArr t, jsTrim e = e := by
  intro e he
  unfold _toTranslationsArray at he
  by_cases hg : nullishGate t = true
  · rw [if_pos hg] at he; simp at he
  · rw [if_neg hg] at he
    cases t with
    | arr xs =>
      rcases mem_map_trim_filter coalesceStr xs e he with ⟨⟨x, hx⟩, _⟩
      rw [hx]; exact jsTrim_idem (coalesceStr x)
    | str s =>
      simp only [] at he
      rcases hjson : jsonArr s with _ | parsed
      · rw [hjson] at he
        by_cases h2 : jsIncludes s "||" = true
        · rw [if_pos h2] at he
          rcases mem_split_trim_filter _ e he with ⟨⟨x, hx⟩, _⟩
          rw [hx]; exact jsTrim_idem x
        · rw [if_neg h2] at he
          by_cases h1 : jsIncludes s "|" = true
          · rw [if_pos h1] at he
            rcases mem_split_trim_filter _ e he with ⟨⟨x, hx⟩, _⟩
            rw [hx]; exact jsTrim_idem x
          · rw [if_neg h1] at he
            by_cases hc : (jsIncludes s "," &&
                decide ((((jsSplit s ",").map jsTrim).filter fun e => !(e == "")).length > 1)) = true
            · rw [if_pos hc] at he
              rcases mem_split_trim_filter _ e he with ⟨⟨x, hx⟩, _⟩
              rw [hx]; exact jsTrim_idem x
            · rw [if_neg hc] at he
              rw [List.mem_singleton.mp he]
              exact jsTrim_idem s
      · rw [hjson] at he
        rcases mem_map_trim_filter coalesceStr parsed e he with ⟨⟨x, hx⟩, _⟩
        rw [hx]; exact jsTrim_idem (coalesceStr x)
    | null => exact absurd rfl hg
    | num n =>
      rw [List.mem_singleton.mp he]
      exact jsTrim_idem _
    | bool b =>
      cases b with
      | false => exact absurd rfl hg
      | true =>
        rw [List.mem_singleton.mp he]
        exact jsTrim_idem _

/-! ## The last item of a day-sorted collection carries the maximal day -/

theorem foldl_max_sorted :
    ∀ (rest : List VocabItem) (a : VocabItem),
      (a :: rest).Pairwise (fun x y => x.day_no ≤ y.day_no) →
      rest.foldl (fun m x => max m x.day_no) a.day_no = lastDayNo (a :: rest) := by
  intro rest
  induction rest with
  | nil => intro a _; rfl
  | cons b t ih =>
    intro a h
    rcases List.pairwise_cons.mp h with ⟨hab, hbt⟩
    have h1 : max a.day_no b.day_no = b.day_no :=
      max_eq_right (hab b (List.mem_cons_self b t))
    have h2 : lastDayNo (a :: b :: t) = lastDayNo (b :: t) := by
      unfold lastDayNo
      rw [List.getLast?_cons_cons]
    rw [h2, List.foldl_cons, h1]
    exact ih b hbt

theorem lastDayNo_eq_maxDayNo (v : List VocabItem)
    (h : v.Pairwise fun a b => a.day_no ≤ b.day_no) : lastDayNo v = maxDayNo v := by
  cases v with
  | nil => rfl
  | cons a rest =>
    unfold maxDayNo
    exact (foldl_max_sorted rest a h).symm

/-! ## Claim theorems -/

/-- C7: when the answer-check handler runs and no vocabulary item has
`day_no` equal to the selected day, a user-facing notice is reported and
the whole application state is returned unchanged. -/
theorem c7_checkAnswer_no_item (jsonArr : String → Option (List JsVal)) (s : AppState)
    (h : currentItem s = none) :
    checkAnswer jsonArr s = (s, some Notice.noItem) := by
  unfold checkAnswer
  rw [h]

/-- Witness for C7 at the initial (empty-vocabulary) state. -/
theorem c7_witness :
    currentItem initState = none ∧
    checkAnswer noJson initState = (initState, some Notice.noItem) :=
  ⟨rfl, c7_checkAnswer_no_item noJson initState rfl⟩

/-- C1: on a non-empty collection sorted ascending by `day_no`, a correct
answer advances the selected day by exactly one when it is strictly below
the maximal `day_no`, leaves it unchanged when it equals the maximum, and
in both cases records a correct check and clears the draft answer. -/
theorem c1_checkAnswer_correct (jsonArr : String → Option (List JsVal))
    (s : AppState) (item : VocabItem)
    (_hne : s.vocab ≠ [])
    (hsorted : s.vocab.Pairwise fun a b => a.day_no ≤ b.day_no)
    (hitem : currentItem s = some item)
    (hmatch : _matchesTranslation jsonArr s.answer item.translation = true) :
    (s.day < maxDayNo s.vocab → (checkAnswer jsonArr s).1.day = s.day + 1) ∧
    (s.day = maxDayNo s.vocab → (checkAnswer jsonArr s).1.day = s.day) ∧
    (checkAnswer jsonArr s).1.check = some CheckRes.ok ∧
    (checkAnswer jsonArr s).1.answer = "" := by
  have hbridge := lastDayNo_eq_maxDayNo s.vocab hsorted
  unfold checkAnswer
  rw [hitem]
  simp only []
  rw [if_pos hmatch]
  by_cases hday : s.day < lastDayNo s.vocab
  · rw [if_pos hday]
    refine ⟨fun _ => rfl, ?_, rfl, rfl⟩
    intro heq
    rw [hbridge] at hday
    omega
  · rw [if_neg hday]
    refine ⟨?_, fun _ => rfl, rfl, rfl⟩
    intro hlt
    rw [hbridge] at hday
    exact absurd hlt hday

/-- Witness for C1: in the two-day fixture a correct day-1 answer advances
to day 2. -/
theorem c1_witness :
    sTwoDays.day < maxDayNo sTwoDays.vocab ∧
    (checkAnswer noJson sTwoDays).1.day = sTwoDays.day + 1 ∧
    (checkAnswer noJson sTwoDays).1.check = some CheckRes.ok ∧
    (checkAnswer noJson sTwoDays).1.answer = "" := by
  have hsorted : sTwoDays.vocab.Pairwise fun a b => a.day_no ≤ b.day_no := by
    refine List.Pairwise.cons ?_ (List.Pairwise.cons ?_ List.Pairwise.nil)
    · intro x hx
      rw [List.mem_singleton.mp hx]
      decide
    · intro x hx
      simp at hx
  have h := c1_checkAnswer_correct noJson sTwoDays itemApple
    (List.cons_ne_nil itemApple [itemBear]) hsorted rfl rfl
  exact ⟨by decide, h.1 (by decide), h.2.2.1, h.2.2.2⟩

/-- C6: `previous` decrements only above day 1, `next` increments only
strictly below the maximal `day_no` (1 for an empty collection), `select`
adopts the parsed integer and is a no-op on non-numeric input; every
applied transition clears the draft answer and the last check, and a
boundary no-op leaves the state exactly as it was.  The collection is
day-sorted as the spec's data-model invariant guarantees. -/
theorem c6_day_navigation (s : AppState) (v : String)
    (hsorted : s.vocab.Pairwise fun a b => a.day_no ≤ b.day_no) :
    (s.day > 1 →
      goPrevDay s = { s with day := s.day - 1, answer := "", check := none }) ∧
    (¬ s.day > 1 → goPrevDay s = s) ∧
    (s.day < maxDayNo s.vocab →
      goNextDay s = { s with day := s.day + 1, answer := "", check := none }) ∧
    (¬ s.day < maxDayNo s.vocab → goNextDay s = s) ∧
    (∀ n, jsParseInt10 v = some n →
      setDayFromSelect v s = { s with day := n, answer := "", check := none }) ∧
    (jsParseInt10 v = none → setDayFromSelect v s = s) := by
  have hbridge := lastDayNo_eq_maxDayNo s.vocab hsorted
  refine ⟨?_, ?_, ?_, ?_, ?_, ?_⟩
  · intro h
    unfold goPrevDay
    rw [if_pos h]
  · intro h
    unfold goPrevDay
    rw [if_neg h]
  · intro h
    unfold goNextDay
    rw [← hbridge] at h
    simp only []
    rw [if_pos h]
  · intro h
    unfold goNextDay
    rw [← hbridge] at h
    simp only []
    rw [if_neg h]
  · intro n h
    unfold setDayFromSelect
    rw [h]
  · intro h
    unfold setDayFromSelect
    rw [h]

/-- Witness for C6 on the two-day fixture at day 2: `previous` applies,
`next` is a boundary no-op, `select "1"` adopts day 1, `select "x"` is a
no-op. -/
theorem c6_witness :
    (goPrevDay { sTwoDays with day := 2 } =
      { sTwoDays with day := 1, answer := "", check := none }) ∧
    (goNextDay { sTwoDays with day := 2 } = { sTwoDays with day := 2 }) ∧
    (setDayFromSelect "1" { sTwoDays with day := 2 } =
      { sTwoDays with day := 1, answer := "", check := none }) ∧
    (setDayFromSelect "x" { sTwoDays with day := 2 } = { sTwoDays with day := 2 }) := by
  have hsorted : ({ sTwoDays with day := 2 } : AppState).vocab.Pairwise
      fun a b => a.day_no ≤ b.day_no := by
    refine List.Pairwise.cons ?_ (List.Pairwise.cons ?_ List.Pairwise.nil)
    · intro x hx
      rw [List.mem_singleton.mp hx]
      decide
    · intro x hx
      simp at hx
  have h1 := c6_day_navigation { sTwoDays with day := 2 } "1" hsorted
  have h2 := c6_day_navigation { sTwoDays with day := 2 } "x" hsorted
  exact ⟨h1.1 (by decide), h1.2.2.2.1 (by decide), h1.2.2.2.2.1 1 rfl,
    h2.2.2.2.2.2 rfl⟩

/-- C4: `matches` returns true exactly when the lowercased, trimmed answer
equals the lowercased, trimmed form of some entry of the parsed translation
set, for a translation transported in any shape. -/
theorem c4_matches_iff (jsonArr : String → Option (List JsVal))
    (answer : String) (t : JsVal) :
    _matchesTranslation jsonArr answer t = true ↔
      ∃ e ∈ _toTranslationsArray jsonArr t,
        jsToLower (jsTrim e) = jsToLower (jsTrim answer) := by
  unfold _matchesTranslation
  rw [List.any_eq_true]
  constructor
  · rintro ⟨e, he, hb⟩
    exact ⟨e, he, eq_of_beq hb⟩
  · rintro ⟨e, he, hn⟩
    exact ⟨e, he, beq_iff_eq.mpr hn⟩

/-- C2: the source's `_toTranslationsArray` coincides, on array and string
inputs, with the parser exactly as the spec words it
(`parseTranslationSet_spec`); in particular malformed JSON falls through to
the delimiter cascade and the empty string yields the empty sequence. -/
theorem c2_parse_refines_spec (jsonArr : String → Option (List JsVal)) :
    (∀ s : String,
      _toTranslationsArray jsonArr (JsVal.str s) =
        parseTranslationSet_spec jsonArr (JsVal.str s)) ∧
    (∀ xs : List JsVal,
      _toTranslationsArray jsonArr (JsVal.arr xs) =
        parseTranslationSet_spec jsonArr (JsVal.arr xs)) := by
  constructor
  · intro s
    by_cases hs : s = ""
    · rw [hs]
      rfl
    · unfold _toTranslationsArray parseTranslationSet_spec
      simp only []
      rw [if_neg (by simpa [nullishGate] using hs), if_neg hs]
      cases hjson : jsonArr s with
      | some parsed => rfl
      | none =>
        simp only []
        by_cases h2 : jsIncludes s "||" = true
        · rw [if_pos h2, if_pos h2]
        · rw [if_neg h2, if_neg h2]
          by_cases h1 : jsIncludes s "|" = true
          · rw [if_pos h1, if_pos h1]
          · rw [if_neg h1, if_neg h1]
            by_cases hc : jsIncludes s "," = true
            · by_cases hlen :
                  (((jsSplit s ",").map jsTrim).filter fun e => !(e == "")).length > 1
              · rw [if_pos (by simp [hc, hlen]), if_pos hlen]
              · rw [if_neg (by simp [hlen]), if_neg hlen]
            · have hsingle : jsSplit s "," = [s] :=
                jsSplit_of_not_includes s "," (by simpa using hc)
              have hlen : ¬ (((jsSplit s ",").map jsTrim).filter
                  fun e => !(e == "")).length > 1 := by
                rw [hsingle]
                have := List.length_filter_le (fun e => !(e == ""))
                  [jsTrim s]
                simp at this ⊢
                omega
              rw [if_neg (by simp [hc]), if_neg hlen]
  · intro xs
    rfl

/-- C3 counterexample: with the `"||"`-delimited string translation
`"cat||gato"` and a wrong draft answer, the handler records the raw
translation string as the expected value, not the `" / "`-joined display
form the claim prescribes (which here is `"cat / gato"`). -/
theorem c3_counterexample :
    (checkAnswer noJson sMulti).1.check = some (CheckRes.ng (JsVal.str "cat||gato")) ∧
    formatTranslation noJson itemMulti.translation = "cat / gato" ∧
    some (CheckRes.ng (JsVal.str "cat||gato")) ≠
      some (CheckRes.ng (JsVal.str (formatTranslation noJson itemMulti.translation))) := by
  refine ⟨rfl, rfl, ?_⟩
  intro h
  injection h with h1
  injection h1 with h2
  injection h2 with h3
  exact absurd h3 (by decide)

/-- C3 amended: on a mismatch the handler sets
`lastCheck = (correct := false, expected := gold)` where `gold` is the raw
translation value when it is not an array and the `" / "`-join of the raw
elements when it is (`goldOf`), and leaves the draft answer untouched. -/
theorem c3_checkAnswer_mismatch (jsonArr : String → Option (List JsVal))
    (s : AppState) (item : VocabItem)
    (hitem : currentItem s = some item)
    (hmatch : _matchesTranslation jsonArr s.answer item.translation = false) :
    (checkAnswer jsonArr s).1.check = some (CheckRes.ng (goldOf item.translation)) ∧
    (checkAnswer jsonArr s).1.answer = s.answer := by
  unfold checkAnswer
  rw [hitem]
  simp only []
  rw [if_neg (by simp [hmatch])]
  exact ⟨rfl, rfl⟩

/-- Witness for the amended C3 on the mismatch fixture. -/
theorem c3_witness :
    currentItem sMulti = some itemMulti ∧
    _matchesTranslation noJson sMulti.answer itemMulti.translation = false ∧
    (checkAnswer noJson sMulti).1.check =
      some (CheckRes.ng (goldOf itemMulti.translation)) ∧
    (checkAnswer noJson sMulti).1.answer = sMulti.answer := by
  have h := c3_checkAnswer_mismatch noJson sMulti itemMulti rfl rfl
  exact ⟨rfl, rfl, h.1, h.2⟩

/-- C5 counterexample: with an empty filtered set (`totalPages = 0`) and
`listPage = 5`, `ListTable` leaves the page at 5 instead of clamping it
into the claimed interval, whose upper end `max 1 totalPages` is 1. -/
theorem c5_counterexample :
    (listTablePage [] "" 5).1 = 0 ∧
    (listTablePage [] "" 5).2.1 = 5 ∧
    (listTablePage [] "" 5).2.1 ≠ 1 := by
  exact ⟨rfl, rfl, by decide⟩

/-- C5 amended: `totalPages` is the ceiling of the filtered count over 10;
the clamp lowers `listPage` onto `[1, totalPages]` only when
`totalPages > 0` (leaving in-range values unchanged), while for
`totalPages = 0` a page below 1 is raised to 1 and any other page is left
as it is; the visible slice is the ten rows starting at
`(clampedPage - 1) * 10` of the filtered list; and changing the search
text always resets the page to 1. -/
theorem c5_list_pagination (vocab : List VocabItem) (search : String)
    (page : Int) (q : String) (s : AppState) :
    ((listTablePage vocab search page).1 * 10 <
        (filteredRows vocab search).length + 10 ∧
      (filteredRows vocab search).length ≤ (listTablePage vocab search page).1 * 10) ∧
    (0 < (listTablePage vocab search page).1 →
      1 ≤ (listTablePage vocab search page).2.1 ∧
      (listTablePage vocab search page).2.1 ≤ ((listTablePage vocab search page).1 : Int) ∧
      (1 ≤ page → page ≤ ((listTablePage vocab search page).1 : Int) →
        (listTablePage vocab search page).2.1 = page)) ∧
    ((listTablePage vocab search page).1 = 0 →
      (listTablePage vocab search page).2.1 = if page < 1 then 1 else page) ∧
    (listTablePage vocab search page).2.2 =
      ((filteredRows vocab search).drop
        (((listTablePage vocab search page).2.1 - 1) * 10).toNat).take 10 ∧
    (onSearchChange q s).listPage = 1 := by
  unfold listTablePage
  simp only []
  refine ⟨?_, ?_, ?_, by trivial, rfl⟩
  · have h1 := Nat.div_add_mod ((filteredRows vocab search).length + 10 - 1) 10
    have h2 : ((filteredRows vocab search).length + 10 - 1) % 10 < 10 :=
      Nat.mod_lt _ (by norm_num)
    omega
  · intro htp
    constructor
    · split <;> split <;> omega
    · constructor
      · split <;> split <;> omega
      · intro hp1 hp2
        split <;> split <;> omega
  · intro htp
    rw [htp]
    simp

/-- Witness for the amended C5: eleven one-day items give two pages, page 5
clamps to 2, and the slice is the second page's single row; a search change
resets the page. -/
theorem c5_witness :
    0 < (listTablePage (List.replicate 11 itemApple) "" 5).1 ∧
    1 ≤ (listTablePage (List.replicate 11 itemApple) "" 5).2.1 ∧
    (listTablePage (List.replicate 11 itemApple) "" 5).2.1 ≤
      ((listTablePage (List.replicate 11 itemApple) "" 5).1 : Int) ∧
    (onSearchChange "bear" sTwoDays).listPage = 1 := by
  have h := c5_list_pagination (List.replicate 11 itemApple) "" 5 "bear" sTwoDays
  have htp : 0 < (listTablePage (List.replicate 11 itemApple) "" 5).1 := by decide
  have h2 := h.2.1 htp
  exact ⟨htp, h2.1, h2.2.1, h.2.2.2.2⟩

/-- C9 counterexample: after a reveal toggle, the logout handler leaves the
revealed-keys set intact (lines 112-120 never touch `state.revealed`), so
not every application-state field returns to its initial value as the claim
says. -/
theorem c9_counterexample :
    (logout false false false { initState with revealed := ["k"] }).1.revealed = ["k"] ∧
    ({ initState with view := View.auth } : AppState).revealed = [] ∧
    (logout false false false { initState with revealed := ["k"] }).1 ≠
      { initState with view := View.auth } := by
  refine ⟨rfl, rfl, ?_⟩
  intro h
  have := congrArg AppState.revealed h
  simp [initState, logout] at this

/-- C9 amended: logout always issues the `POST`, retries exactly once with
the `GET` fallback when the `POST` fails and swallows the fallback's own
failure, then — regardless of either outcome — resets every state field
except the revealed-keys set to its initial value, sets the view to the
auth screen, and performs a fresh navigation. -/
theorem c9_logout (postFails getFails urlCtorFails : Bool) (s : AppState) :
    (logout postFails getFails urlCtorFails s).1 =
      { initState with view := View.auth, revealed := s.revealed } ∧
    (logout postFails getFails urlCtorFails s).2.1 =
      (if postFails then [LogCall.post, LogCall.get] else [LogCall.post]) ∧
    logout postFails true urlCtorFails s = logout postFails false urlCtorFails s ∧
    ((logout postFails getFails urlCtorFails s).2.2 = NavAction.replace ∨
      (logout postFails getFails urlCtorFails s).2.2 = NavAction.reload) := by
  refine ⟨rfl, rfl, rfl, ?_⟩
  cases urlCtorFails with
  | false => exact Or.inl rfl
  | true => exact Or.inr rfl

/-- C8 counterexample: `"a|b||"` parses to the single entry `"a|b"`, whose
display form re-splits on `"|"` into two entries, so the roundtrip does not
preserve the entries of every single-entry set. -/
theorem c8_counterexample :
    _toTranslationsArray noJson (JsVal.str "a|b||") = ["a|b"] ∧
    formatTranslation noJson (JsVal.str "a|b||") = "a|b" ∧
    _toTranslationsArray noJson
        (JsVal.str (formatTranslation noJson (JsVal.str "a|b||"))) = ["a", "b"] ∧
    (["a", "b"] : List String) ≠ ["a|b"] :=
  ⟨rfl, rfl, rfl, by decide⟩

/-- C8 amended: the parse-display roundtrip preserves a single-entry set
provided the entry is non-empty, contains neither delimiter `"|"` (hence
neither `"||"`), does not split on `","` into more than one non-empty
trimmed segment, and is not itself recognised as a JSON array. -/
theorem c8_roundtrip (jsonArr : String → Option (List JsVal)) (s e : String)
    (hone : _toTranslationsArray jsonArr (JsVal.str s) = [e])
    (hne : e ≠ "")
    (hbar2 : jsIncludes e "||" = false)
    (hbar : jsIncludes e "|" = false)
    (hcomma : (((jsSplit e ",").map jsTrim).filter fun x => !(x == "")).length ≤ 1)
    (hjson : jsonArr e = none) :
    _toTranslationsArray jsonArr
        (JsVal.str (formatTranslation jsonArr (JsVal.str s))) =
      _toTranslationsArray jsonArr (JsVal.str s) := by
  have htrim : jsTrim e = e :=
    entries_trim jsonArr (JsVal.str s) e (by rw [hone]; exact List.mem_singleton_self e)
  have hdisp : formatTranslation jsonArr (JsVal.str s) = e := by
    unfold formatTranslation
    rw [hone]
    rfl
  rw [hdisp, hone]
  unfold _toTranslationsArray
  rw [if_neg (by simpa [nullishGate] using hne)]
  simp only []
  rw [hjson]
  simp only []
  rw [if_neg (by simp [hbar2]), if_neg (by simp [hbar])]
  rw [if_neg (by
    intro hcond
    rcases Bool.and_eq_true_iff.mp hcond with ⟨-, hd⟩
    have := of_decide_eq_true hd
    omega)]
  rw [htrim]

/-- Witness for the amended C8 at the plain single entry `"hello"`. -/
theorem c8_witness :
    _toTranslationsArray noJson (JsVal.str "hello") = ["hello"] ∧
    _toTranslationsArray noJson
        (JsVal.str (formatTranslation noJson (JsVal.str "hello"))) =
      _toTranslationsArray noJson (JsVal.str "hello") :=
  ⟨rfl, c8_roundtrip noJson "hello" "hello" rfl (by decide) rfl rfl (by decide) rfl⟩

/-- C10 counterexample: the whitespace-only translation string `" "` parses
to the single empty entry, which a whitespace-only answer matches, so
`matches` is not always false on blank answers. -/
theorem c10_counterexample :
    _norm " " = "" ∧ _matchesTranslation noJson " " (JsVal.str " ") = true :=
  ⟨rfl, rfl⟩

/-- C10 amended: with a blank (empty or whitespace-only) answer, `matches`
is false for every translation value except precisely a non-empty
whitespace-only string that the JSON oracle does not parse as an array —
that string's singleton entry trims to empty and matches. -/
theorem c10_matches_blank (jsonArr : String → Option (List JsVal))
    (a : String) (t : JsVal) (ha : _norm a = "") :
    _matchesTranslation jsonArr a t = true ↔
      ∃ w : String, t = JsVal.str w ∧ w ≠ "" ∧ jsTrim w = "" ∧ jsonArr w = none := by
  unfold _matchesTranslation
  rw [List.any_eq_true]
  constructor
  · rintro ⟨e, he, hb⟩
    have hnorm : _norm e = "" := by
      have h0 := eq_of_beq hb
      rw [ha] at h0
      exact h0
    have htr : jsTrim e = e := entries_trim jsonArr t e he
    have hempty : e = "" := by
      have h1 : jsTrim e = "" := (norm_eq_empty_iff e).mp hnorm
      rw [htr] at h1
      exact h1
    unfold _toTranslationsArray at he
    by_cases hg : nullishGate t = true
    · rw [if_pos hg] at he
      simp at he
    · rw [if_neg hg] at he
      cases t with
      | arr xs =>
        rcases mem_map_trim_filter coalesceStr xs e he with ⟨-, hn⟩
        exact absurd hempty hn
      | str w =>
        simp only [] at he
        rcases hjson : jsonArr w with _ | parsed
        · rw [hjson] at he
          by_cases h2 : jsIncludes w "||" = true
          · rw [if_pos h2] at he
            rcases mem_split_trim_filter _ e he with ⟨-, hn⟩
            exact absurd hempty hn
          · rw [if_neg h2] at he
            by_cases h1 : jsIncludes w "|" = true
            · rw [if_pos h1] at he
              rcases mem_split_trim_filter _ e he with ⟨-, hn⟩
              exact absurd hempty hn
            · rw [if_neg h1] at he
              by_cases hc : (jsIncludes w "," && decide
                  ((((jsSplit w ",").map jsTrim).filter
                    fun x => !(x == "")).length > 1)) = true
              · rw [if_pos hc] at he
                rcases mem_split_trim_filter _ e he with ⟨-, hn⟩
                exact absurd hempty hn
              · rw [if_neg hc] at he
                have hwe : jsTrim w = "" := by
                  have h3 := List.mem_singleton.mp he
                  rw [hempty] at h3
                  exact h3.symm
                refine ⟨w, rfl, ?_, hwe, hjson⟩
                intro hw0
                rw [hw0] at hg
                exact hg rfl
        · rw [hjson] at he
          rcases mem_map_trim_filter coalesceStr parsed e he with ⟨-, hn⟩
          exact absurd hempty hn
      | null => exact absurd rfl hg
      | num n =>
        have h3 : e = jsTrim (jsToString (JsVal.num n)) := List.mem_singleton.mp he
        have hj : jsToString (JsVal.num n) = intToStr n := by simp [jsToString]
        rw [hempty, hj] at h3
        exact absurd h3.symm (jsTrim_intToStr_ne_empty n)
      | bool b =>
        cases b with
        | false => exact absurd rfl hg
        | true =>
          have h3 : e = jsTrim (jsToString (JsVal.bool true)) := List.mem_singleton.mp he
          have hj : jsTrim (jsToString (JsVal.bool true)) = "true" := by
            have h4 : jsToString (JsVal.bool true) = "true" := by simp [jsToString]
            rw [h4]
            decide
          rw [hempty, hj] at h3
          exact absurd h3 (by decide)
  · rintro ⟨w, rfl, hw, htrim, hjson⟩
    have hws : ∀ c ∈ w.data, jsWhitespace c = true := (jsTrim_eq_empty_iff w).mp htrim
    have h2 : jsIncludes w "||" = false := containsSubAux_false_of_ws w.data hws '|' ['|'] rfl
    have h1 : jsIncludes w "|" = false := containsSubAux_false_of_ws w.data hws '|' [] rfl
    have hc : jsIncludes w "," = false := containsSubAux_false_of_ws w.data hws ',' [] rfl
    refine ⟨"", ?_, ?_⟩
    · unfold _toTranslationsArray
      rw [if_neg (by simpa [nullishGate] using hw)]
      simp only []
      rw [hjson]
      simp only []
      rw [if_neg (by simp [h2]), if_neg (by simp [h1]), if_neg (by simp [hc]), htrim]
      exact List.mem_singleton_self ""
    · rw [ha]
      rfl

/-- Witness for the amended C10: a blank answer against an array-shaped
translation does not match, and the exceptional whitespace-only string
translation does. -/
theorem c10_witness :
    _norm "" = "" ∧
    _matchesTranslation noJson "" (JsVal.arr [JsVal.str "cat"]) = false ∧
    _matchesTranslation noJson "" (JsVal.str " ") = true := by
  refine ⟨rfl, ?_, ?_⟩
  · have h := (c10_matches_blank noJson "" (JsVal.arr [JsVal.str "cat"]) rfl)
    cases hm : _matchesTranslation noJson "" (JsVal.arr [JsVal.str "cat"]) with
    | false => rfl
    | true =>
      rcases h.mp hm with ⟨w, hwe, -, -, -⟩
      cases hwe
  · exact (c10_matches_blank noJson "" (JsVal.str " ") rfl).mpr
      ⟨" ", rfl, by decide, rfl, rfl⟩

/-- Witness for C2 at the spec's own comma example. -/
theorem c2_witness :
    _toTranslationsArray noJson (JsVal.str "red, blue") =
      parseTranslationSet_spec noJson (JsVal.str "red, blue") ∧
    parseTranslationSet_spec noJson (JsVal.str "red, blue") = ["red", "blue"] :=
  ⟨(c2_parse_refines_spec noJson).1 "red, blue", rfl⟩

/-- Witness for C4 at the spec's multi-value example. -/
theorem c4_witness :
    (_matchesTranslation noJson "gato" (JsVal.str "cat||gato") = true ↔
      ∃ e ∈ _toTranslationsArray noJson (JsVal.str "cat||gato"),
        jsToLower (jsTrim e) = jsToLower (jsTrim "gato")) ∧
    _matchesTranslation noJson "gato" (JsVal.str "cat||gato") = true :=
  ⟨c4_matches_iff noJson "gato" (JsVal.str "cat||gato"), rfl⟩

/-- Witness for the amended C9: a failing `POST` is retried once with the
`GET` fallback, and the state resets (the initial state has no revealed
keys, so the reset state here is exactly the initial one on the auth
view). -/
theorem c9_witness :
    (logout true false false initState).2.1 = [LogCall.post, LogCall.get] ∧
    (logout true false false initState).1 = { initState with view := View.auth } := by
  have h := c9_logout true false false initState
  exact ⟨h.2.1.trans rfl, h.1.trans rfl⟩
